import Mathlib

/-!
Verification of the party-distribution aggregation pipeline of the mcp_dip
repository.  The backend pipeline lives in `src/backend/dip_server.py`
(`get_party_distribution`, lines 200-301); an identical copy of the
attribution/tally/ranking stages lives in `src/frontend/chat_with_mcp.py`
(lines 157-270).  The Python code is embedded shallowly:

* person records (`Member`), role entries (`Role`) and the polymorphic
  `fraktion` field (`Fraktion`) mirror the JSON shapes the code branches on;
* Python truthiness of an optional string (`None` or `""` is falsy) is the
  predicate `pyFalsy`;
* the cursor-pagination loop is `fetchPages`, driven by a `gas` counter that
  encodes the `pages_fetched > 100` safety check (`gas = 100 - n` where `n`
  is the number of pages already fetched, so `gas = 0` exactly when the
  Python check fires);
* `requests.get(...).raise_for_status()` raises for HTTP statuses 400-599
  (client and server errors), which is `isErrorStatus`;
* floating-point arithmetic of `round((count / total) * 100.0, 2)` is
  modelled exactly over `ℚ` with round-half-to-even (`round2`), the rounding
  rule of the Python built-in `round`;
* `sorted(party_counts.items(), key=lambda x: (-x[1], x[0]))` sorts by a
  key that is injective on dict items (dict keys are distinct), so the
  stable sort is determined by the total order `pairLe`; we realise it with
  `List.insertionSort`, which is extensionally the unique sorted rearrangement.
-/

/-- Python truthiness for an optional string value: `None` and `""` are falsy. -/
abbrev pyFalsy (v : Option String) : Prop := v = none ∨ v = some ""

/-- The `fraktion` field of an upstream person record: the API delivers it
either as a single string, as a list of strings, or not at all (absent or a
value of another type, which the code treats the same as absent). -/
inductive Fraktion where
  | fstr (s : String)
  | flist (l : List String)
  | absent
deriving DecidableEq

/-- One entry of `person_roles`: the periods the role applies to and the
role-level party label (absent keys give `None`; `... or []` turns a missing
or null period list into `[]`, which we represent directly). -/
structure Role where
  wahlperiode_nummer : List Int
  fraktion : Option String
deriving DecidableEq

/-- An upstream person record, restricted to the fields the pipeline reads.
The name fields are carried but never consulted by the aggregation. -/
structure Member where
  vorname : Option String
  nachname : Option String
  fraktion : Fraktion
  person_roles : List Role
deriving DecidableEq

/-- One page body of the upstream response: `documents` and the pagination
`cursor` (`data.get('cursor')`, absent keys give `None`). -/
structure Page where
  documents : List Member
  cursor : Option String
deriving DecidableEq

/-- An HTTP response: status code plus parsed JSON body. -/
structure HttpResponse where
  status : Nat
  body : Page
deriving DecidableEq

/-- The two failure modes of the aggregation: the missing-credential
`RuntimeError` raised before the loop, and the `requests.HTTPError` raised
by `raise_for_status` (carrying the offending status code). -/
inductive DipError where
  | configError
  | httpError (status : Nat)
deriving DecidableEq

/-- `raise_for_status` raises exactly for client-error (4xx) and
server-error (5xx) status codes. -/
abbrev isErrorStatus (s : Nat) : Prop := 400 ≤ s ∧ s ≤ 599

/-- One output entry: the dict
`{"fraktion": party, "count": count, "percentage": percentage}`. -/
structure Entry where
  fraktion : String
  count : Nat
  percentage : ℚ
deriving DecidableEq

/-- Round to the nearest integer, ties to the even neighbour — the rounding
rule of the Python built-in `round`. -/
def roundHalfEven (q : ℚ) : ℤ :=
  let n := ⌊q⌋
  if q - n < 1 / 2 then n
  else if 1 / 2 < q - n then n + 1
  else if n % 2 = 0 then n else n + 1

/-- `round(x, 2)`: round to two decimal places. -/
def round2 (q : ℚ) : ℚ := (roundHalfEven (q * 100) : ℚ) / 100

/-- The sort key `lambda x: (-x[1], x[0])` of the Python `sorted` call, as a
total order on `(party, count)` pairs: count descending, then label
ascending (Python compares strings by code points, as Lean does). -/
def pairLe (a b : String × Nat) : Prop :=
  b.2 < a.2 ∨ (a.2 = b.2 ∧ a.1 ≤ b.1)

instance : DecidableRel pairLe := fun a b => by
  unfold pairLe; exact inferInstance

instance : IsTotal (String × Nat) pairLe := by
  constructor
  intro a b
  rcases Nat.lt_trichotomy a.2 b.2 with h | h | h
  · exact Or.inr (Or.inl h)
  · rcases le_total a.1 b.1 with h1 | h1
    · exact Or.inl (Or.inr ⟨h, h1⟩)
    · exact Or.inr (Or.inr ⟨h.symm, h1⟩)
  · exact Or.inl (Or.inl h)

instance : IsTrans (String × Nat) pairLe := by
  constructor
  intro a b c hab hbc
  rcases hab with h1 | ⟨e1, l1⟩
  · rcases hbc with h2 | ⟨e2, l2⟩
    · exact Or.inl (h2.trans h1)
    · exact Or.inl (e2 ▸ h1)
  · rcases hbc with h2 | ⟨e2, l2⟩
    · exact Or.inl (e1 ▸ h2)
    · exact Or.inr ⟨e1.trans e2, l1.trans l2⟩

/-- A JSON value appearing in an output entry. -/
inductive JsonValue where
  | str (s : String)
  | nat (n : Nat)
  | rat (q : ℚ)
deriving DecidableEq

/-- A query-parameter value: a string or a list of integers. -/
inductive ParamValue where
  | str (s : String)
  | intList (l : List Int)
deriving DecidableEq

namespace DipServer

/-- The `person_roles` scan of `get_party_distribution`
(dip_server.py lines 276-283): the first role whose `wahlperiode_nummer`
contains the requested period and whose `fraktion` is truthy supplies the
label; a role matching the period with a falsy `fraktion` does not stop the
scan (the `break` sits inside `if role_party:`). -/
def rolesScan (wahlperiode : Int) : List Role → Option String
  | [] => none
  | role :: rest =>
    if wahlperiode ∈ role.wahlperiode_nummer ∧ ¬ pyFalsy role.fraktion then
      role.fraktion
    else rolesScan wahlperiode rest

/-- Party attribution for one record (dip_server.py lines 263-287):
the direct `fraktion` field first (first element of a non-empty list, or the
string itself), then — whenever the direct value is falsy — the role scan,
and finally the sentinel. -/
def attributeParty (wahlperiode : Int) (member : Member) : String :=
  let direct : Option String :=
    match member.fraktion with
    | .flist (first :: _) => some first
    | .flist [] => none
    | .fstr s => some s
    | .absent => none
  let party : Option String :=
    if pyFalsy direct then
      match rolesScan wahlperiode member.person_roles with
      | some p => some p
      | none => direct
    else direct
  if pyFalsy party then "Unbekannt" else party.getD "Unbekannt"

/-- `party_counts[party] = party_counts.get(party, 0) + 1` on an
insertion-ordered association list: an existing key is bumped in place, a
new key is appended. -/
def bump (counts : List (String × Nat)) (party : String) : List (String × Nat) :=
  match counts with
  | [] => [(party, 1)]
  | (q, c) :: rest => if q = party then (q, c + 1) :: rest else (q, c) :: bump rest party

/-- The tally loop over all fetched members (dip_server.py lines 260-289). -/
def tally (wahlperiode : Int) (all_members : List Member) : List (String × Nat) :=
  all_members.foldl (fun acc m => bump acc (attributeParty wahlperiode m)) []

/-- The attribution/tally/ranking stage of `get_party_distribution`
(dip_server.py lines 260-301): tally, sort by `(-count, party)`, and attach
`round((count / total_members) * 100.0, 2)` (or `0.0` when no member was
fetched). -/
def party_distribution (wahlperiode : Int) (all_members : List Member) : List Entry :=
  let party_counts := tally wahlperiode all_members
  let total_members := all_members.length
  (List.insertionSort pairLe party_counts).map fun pc =>
    { fraktion := pc.1, count := pc.2,
      percentage :=
        if 0 < total_members then round2 ((pc.2 : ℚ) / (total_members : ℚ) * 100) else 0 }

/-- The dict literal emitted per entry (dip_server.py lines 295-299). -/
def entryDict (e : Entry) : List (String × JsonValue) :=
  [("fraktion", JsonValue.str e.fraktion),
   ("count", JsonValue.nat e.count),
   ("percentage", JsonValue.rat e.percentage)]

/-- The returned list of dicts, one per party. -/
def party_distribution_dicts (wahlperiode : Int) (all_members : List Member) :
    List (List (String × JsonValue)) :=
  (party_distribution wahlperiode all_members).map entryDict

/-- The query parameters of one backend page request (dip_server.py lines
230-237): format, key, period filter, the Bundestag-only institutional
filter, and the cursor when one is held. -/
def buildParams (apiKey : String) (wahlperiode : Int) (cursor : Option String) :
    List (String × ParamValue) :=
  [("format", ParamValue.str "json"),
   ("apikey", ParamValue.str apiKey),
   ("f.wahlperiode", ParamValue.intList [wahlperiode]),
   ("f.zuordnung", ParamValue.str "BT")] ++
  (match cursor with
   | some c => if c = "" then [] else [("cursor", ParamValue.str c)]
   | none => [])

/-- The pagination loop of `get_party_distribution` (dip_server.py lines
229-257).  `n` is the number of pages already fetched (the page index of the
current request), `cursor` the cursor sent with it, `acc` the accumulated
documents.  The loop body: fetch, raise on 4xx/5xx, extend the accumulator,
stop if the new cursor is falsy or equal to the cursor just used, stop if
`pages_fetched > 100`, else continue with the new cursor.  The `gas`
parameter equals `100 - n` throughout a run started by
`get_party_distribution`, so `gas = 0` holds exactly when the Python check
`pages_fetched > 100` (that is `n + 1 > 100`) fires.  The second component
of the result is the number of page requests issued. -/
def fetchPages (upstream : Nat → HttpResponse) :
    Nat → Nat → Option String → List Member → Except DipError (List Member) × Nat
  | gas, n, cursor, acc =>
    let resp := upstream n
    if isErrorStatus resp.status then (Except.error (DipError.httpError resp.status), n + 1)
    else
      let acc2 := acc ++ resp.body.documents
      if pyFalsy resp.body.cursor ∨ resp.body.cursor = cursor then (Except.ok acc2, n + 1)
      else
        match gas with
        | 0 => (Except.ok acc2, n + 1)
        | g + 1 => fetchPages upstream g (n + 1) resp.body.cursor acc2

/-- The backend tool `get_party_distribution` (dip_server.py lines 200-301):
fail fast on a falsy `DIP_API_KEY`, otherwise run the pagination loop and
feed the accumulated records into the attribution/tally/ranking stage.  The
second component counts the page requests issued. -/
def get_party_distribution (apiKey : Option String) (upstream : Nat → HttpResponse)
    (wahlperiode : Int) : Except DipError (List Entry) × Nat :=
  if pyFalsy apiKey then (Except.error DipError.configError, 0)
  else
    match fetchPages upstream 100 0 none [] with
    | (Except.error e, k) => (Except.error e, k)
    | (Except.ok ms, k) => (Except.ok (party_distribution wahlperiode ms), k)

/-- The cursor sent with page request `i`: none for the first request, and
the cursor of the preceding response afterwards (the loop only continues
with the response cursor as the next request cursor). -/
def usedCursor (upstream : Nat → HttpResponse) : Nat → Option String
  | 0 => none
  | i + 1 => (upstream i).body.cursor

/-- Response `i` is terminal for the loop: its cursor is absent/empty, or
identical to the cursor just used for request `i`. -/
def terminalAt (upstream : Nat → HttpResponse) (i : Nat) : Prop :=
  pyFalsy (upstream i).body.cursor ∨ (upstream i).body.cursor = usedCursor upstream i

/-- The documents of page `i`. -/
def pageDocs (upstream : Nat → HttpResponse) (i : Nat) : List Member :=
  (upstream i).body.documents

end DipServer

namespace ChatMcp

/-- The `person_roles` scan of the frontend copy of `get_party_distribution`
(chat_with_mcp.py lines 245-252). -/
def rolesScan (wahlperiode : Int) : List Role → Option String
  | [] => none
  | role :: rest =>
    if wahlperiode ∈ role.wahlperiode_nummer ∧ ¬ pyFalsy role.fraktion then
      role.fraktion
    else rolesScan wahlperiode rest

/-- Party attribution of the frontend copy (chat_with_mcp.py lines 233-256). -/
def attributeParty (wahlperiode : Int) (member : Member) : String :=
  let direct : Option String :=
    match member.fraktion with
    | .flist (first :: _) => some first
    | .flist [] => none
    | .fstr s => some s
    | .absent => none
  let party : Option String :=
    if pyFalsy direct then
      match rolesScan wahlperiode member.person_roles with
      | some p => some p
      | none => direct
    else direct
  if pyFalsy party then "Unbekannt" else party.getD "Unbekannt"

/-- Dict bump of the frontend copy (chat_with_mcp.py line 258). -/
def bump (counts : List (String × Nat)) (party : String) : List (String × Nat) :=
  match counts with
  | [] => [(party, 1)]
  | (q, c) :: rest => if q = party then (q, c + 1) :: rest else (q, c) :: bump rest party

/-- Tally loop of the frontend copy (chat_with_mcp.py lines 229-258). -/
def tally (wahlperiode : Int) (all_members : List Member) : List (String × Nat) :=
  all_members.foldl (fun acc m => bump acc (attributeParty wahlperiode m)) []

/-- Attribution/tally/ranking stage of the frontend copy
(chat_with_mcp.py lines 229-270). -/
def party_distribution (wahlperiode : Int) (all_members : List Member) : List Entry :=
  let party_counts := tally wahlperiode all_members
  let total_members := all_members.length
  (List.insertionSort pairLe party_counts).map fun pc =>
    { fraktion := pc.1, count := pc.2,
      percentage :=
        if 0 < total_members then round2 ((pc.2 : ℚ) / (total_members : ℚ) * 100) else 0 }

/-- The dict literal emitted per entry (chat_with_mcp.py lines 264-268). -/
def entryDict (e : Entry) : List (String × JsonValue) :=
  [("fraktion", JsonValue.str e.fraktion),
   ("count", JsonValue.nat e.count),
   ("percentage", JsonValue.rat e.percentage)]

/-- The returned list of dicts of the frontend copy. -/
def party_distribution_dicts (wahlperiode : Int) (all_members : List Member) :
    List (List (String × JsonValue)) :=
  (party_distribution wahlperiode all_members).map entryDict

/-- The query parameters of one frontend page request (chat_with_mcp.py
lines 200-206): as the backend but without the institutional filter. -/
def buildParams (apiKey : String) (wahlperiode : Int) (cursor : Option String) :
    List (String × ParamValue) :=
  [("format", ParamValue.str "json"),
   ("apikey", ParamValue.str apiKey),
   ("f.wahlperiode", ParamValue.intList [wahlperiode])] ++
  (match cursor with
   | some c => if c = "" then [] else [("cursor", ParamValue.str c)]
   | none => [])

end ChatMcp

/-- A record with no name and no affiliation of any kind. -/
def unknownMember : Member := ⟨none, none, Fraktion.absent, []⟩

namespace DipServer

/-- `party_counts.get(party, 0)`: first-match lookup in the association list. -/
def getCount : List (String × Nat) → String → Nat
  | [], _ => 0
  | (q, c) :: rest, p => if q = p then c else getCount rest p

lemma bump_snd_sum (counts : List (String × Nat)) (p : String) :
    ((bump counts p).map Prod.snd).sum = (counts.map Prod.snd).sum + 1 := by
  induction counts with
  | nil => simp [bump]
  | cons head rest ih =>
    obtain ⟨q, c⟩ := head
    by_cases h : q = p
    · simp only [bump, if_pos h, List.map_cons, List.sum_cons]
      omega
    · simp only [bump, if_neg h, List.map_cons, List.sum_cons, ih]
      omega

lemma bump_fst (counts : List (String × Nat)) (p : String) :
    (bump counts p).map Prod.fst =
      if p ∈ counts.map Prod.fst then counts.map Prod.fst
      else counts.map Prod.fst ++ [p] := by
  induction counts with
  | nil => simp [bump]
  | cons head rest ih =>
    obtain ⟨q, c⟩ := head
    by_cases h : q = p
    · simp [bump, h]
    · have h2 : ¬ p = q := fun hh => h hh.symm
      by_cases hm : p ∈ rest.map Prod.fst
      · simp [bump, h, ih, hm, h2]
      · simp [bump, h, ih, hm, h2]

lemma bump_fst_nodup (counts : List (String × Nat)) (p : String)
    (h : (counts.map Prod.fst).Nodup) : ((bump counts p).map Prod.fst).Nodup := by
  rw [bump_fst]
  split
  · exact h
  · rename_i hmem
    rw [List.nodup_append]
    refine ⟨h, List.nodup_singleton p, ?_⟩
    intro a ha hb
    rw [List.mem_singleton] at hb
    subst hb
    exact hmem ha

lemma getCount_bump_self (counts : List (String × Nat)) (p : String) :
    getCount (bump counts p) p = getCount counts p + 1 := by
  induction counts with
  | nil => simp [bump, getCount]
  | cons head rest ih =>
    obtain ⟨q, c⟩ := head
    by_cases h : q = p
    · simp [bump, h, getCount]
    · simp [bump, h, getCount, ih]

lemma getCount_bump_ne (counts : List (String × Nat)) (p q : String) (h : q ≠ p) :
    getCount (bump counts p) q = getCount counts q := by
  have h2 : ¬ p = q := Ne.symm h
  induction counts with
  | nil => simp [bump, getCount, h2]
  | cons head rest ih =>
    obtain ⟨r, c⟩ := head
    by_cases hr : r = p
    · subst hr
      simp [bump, getCount, h2]
    · by_cases hq : r = q
      · simp [bump, hr, getCount, hq, h, h2]
      · simp [bump, hr, getCount, hq, ih]

lemma mem_getCount (counts : List (String × Nat)) (p : String) (c : Nat)
    (hnd : (counts.map Prod.fst).Nodup) (hm : (p, c) ∈ counts) : getCount counts p = c := by
  induction counts with
  | nil => cases hm
  | cons head rest ih =>
    obtain ⟨q, d⟩ := head
    simp only [List.map_cons, List.nodup_cons] at hnd
    rcases List.mem_cons.mp hm with h | h
    · rw [Prod.mk.injEq] at h
      obtain ⟨h1, h2⟩ := h
      subst h1
      subst h2
      simp [getCount]
    · have hpmem : p ∈ rest.map Prod.fst := List.mem_map.mpr ⟨(p, c), h, rfl⟩
      have hq : ¬ q = p := by
        intro hqp
        rw [hqp] at hnd
        exact hnd.1 hpmem
      simp [getCount, hq, ih hnd.2 h]

lemma tally_aux_sum (wahlperiode : Int) (ms : List Member) :
    ∀ acc : List (String × Nat),
      ((ms.foldl (fun acc m => bump acc (attributeParty wahlperiode m)) acc).map Prod.snd).sum
        = (acc.map Prod.snd).sum + ms.length := by
  induction ms with
  | nil => intro acc; simp
  | cons m rest ih =>
    intro acc
    simp only [List.foldl_cons, List.length_cons]
    rw [ih, bump_snd_sum]
    omega

lemma tally_aux_getCount (wahlperiode : Int) (p : String) (ms : List Member) :
    ∀ acc : List (String × Nat),
      getCount (ms.foldl (fun acc m => bump acc (attributeParty wahlperiode m)) acc) p
        = getCount acc p + (ms.filter fun m => attributeParty wahlperiode m = p).length := by
  induction ms with
  | nil => intro acc; simp
  | cons m rest ih =>
    intro acc
    simp only [List.foldl_cons, List.filter_cons]
    by_cases h : attributeParty wahlperiode m = p
    · rw [ih, h, getCount_bump_self]
      simp [h]
      omega
    · rw [ih, getCount_bump_ne acc (attributeParty wahlperiode m) p (Ne.symm h)]
      simp [h]

lemma tally_aux_nodup (wahlperiode : Int) (ms : List Member) :
    ∀ acc : List (String × Nat), (acc.map Prod.fst).Nodup →
      (((ms.foldl (fun acc m => bump acc (attributeParty wahlperiode m)) acc)).map Prod.fst).Nodup := by
  induction ms with
  | nil => intro acc h; simpa using h
  | cons m rest ih =>
    intro acc h
    simp only [List.foldl_cons]
    exact ih _ (bump_fst_nodup _ _ h)

lemma tally_sum (wahlperiode : Int) (ms : List Member) :
    ((tally wahlperiode ms).map Prod.snd).sum = ms.length := by
  simpa [tally] using tally_aux_sum wahlperiode ms []

lemma tally_getCount (wahlperiode : Int) (ms : List Member) (p : String) :
    getCount (tally wahlperiode ms) p
      = (ms.filter fun m => attributeParty wahlperiode m = p).length := by
  simpa [tally, getCount] using tally_aux_getCount wahlperiode p ms []

lemma tally_nodup (wahlperiode : Int) (ms : List Member) :
    ((tally wahlperiode ms).map Prod.fst).Nodup := by
  simpa [tally] using tally_aux_nodup wahlperiode ms [] (by simp)

lemma party_distribution_eq_map (wahlperiode : Int) (all_members : List Member) :
    party_distribution wahlperiode all_members =
      (List.insertionSort pairLe (tally wahlperiode all_members)).map fun pc =>
        ⟨pc.1, pc.2,
          if 0 < all_members.length then
            round2 ((pc.2 : ℚ) / (all_members.length : ℚ) * 100)
          else 0⟩ := rfl

/-- A label delivered by the role scan is never the empty string: the scan
only accepts a role whose `fraktion` is truthy. -/
lemma rolesScan_not_falsy (wahlperiode : Int) (roles : List Role) (p : String)
    (h : rolesScan wahlperiode roles = some p) : ¬ p = "" := by
  induction roles with
  | nil => simp [rolesScan] at h
  | cons role rest ih =>
    simp only [rolesScan] at h
    split at h
    · rename_i hcond
      intro hp
      subst hp
      exact hcond.2 (Or.inr h)
    · exact ih h

/-- The attribution chain as amended by claim C1: a non-empty `fraktion`
list contributes its first element only when that element is itself
non-empty; an empty first element, an empty string field, an empty list and
an absent field all fall through to the role scan, whose first match (period
contained in `wahlperiode_nummer`, truthy `fraktion`) supplies the label,
with the sentinel as last resort. -/
def attributionChain (wahlperiode : Int) (member : Member) : String :=
  let fallback := (rolesScan wahlperiode member.person_roles).getD "Unbekannt"
  match member.fraktion with
  | .fstr s => if s = "" then fallback else s
  | .flist (first :: _) => if first = "" then fallback else first
  | .flist [] => fallback
  | .absent => fallback

/-- C1 (amended): `get_party_distribution` attributes one party label per
record by the fallback chain with first match winning, where the first
element of a non-empty `fraktion` list and a string-valued `fraktion` field
are used only when non-empty, falling through to the role scan otherwise,
and the role scan takes the first role containing the requested period with
a non-empty `fraktion`, with sentinel `"Unbekannt"` as last resort. -/
theorem attributeParty_eq_attributionChain (wahlperiode : Int) (member : Member) :
    attributeParty wahlperiode member = attributionChain wahlperiode member := by
  unfold attributeParty attributionChain
  rcases hf : member.fraktion with s | l | _
  · by_cases hs : s = ""
    · subst hs
      rcases hr : rolesScan wahlperiode member.person_roles with _ | p
      · simp [pyFalsy, hr]
      · have hp := rolesScan_not_falsy _ _ _ hr
        simp [pyFalsy, hr, hp]
    · simp [pyFalsy, hs]
  · rcases l with _ | ⟨first, rest⟩
    · rcases hr : rolesScan wahlperiode member.person_roles with _ | p
      · simp [pyFalsy, hr]
      · have hp := rolesScan_not_falsy _ _ _ hr
        simp [pyFalsy, hr, hp]
    · by_cases hfe : first = ""
      · subst hfe
        rcases hr : rolesScan wahlperiode member.person_roles with _ | p
        · simp [pyFalsy, hr]
        · have hp := rolesScan_not_falsy _ _ _ hr
          simp [pyFalsy, hr, hp]
      · simp [pyFalsy, hfe]
  · rcases hr : rolesScan wahlperiode member.person_roles with _ | p
    · simp [pyFalsy, hr]
    · have hp := rolesScan_not_falsy _ _ _ hr
      simp [pyFalsy, hr, hp]

/-- A record whose `fraktion` list is non-empty but starts with the empty
string, and whose roles carry a period-21 role with party CDU. -/
def emptyFirstMember : Member :=
  ⟨none, none, Fraktion.flist ["", "SPD"], [⟨[21], some "CDU"⟩]⟩

/-- C1 counterexample: the claim says a non-empty `fraktion` sequence always
contributes its first element, so this record should resolve to `""`; the
code treats the empty first element as falsy and the role scan yields
`"CDU"` instead. -/
theorem attributeParty_empty_first_element :
    emptyFirstMember.fraktion = Fraktion.flist ["", "SPD"] ∧
    attributeParty 21 emptyFirstMember = "CDU" ∧
    attributeParty 21 emptyFirstMember ≠ "" := by decide

/-- C2: the per-party counts of the returned distribution sum to the number
of fetched records, and each entry counts exactly the records attributed to
its label, so every record — including one with no name and no affiliation —
contributes exactly 1 to exactly one party. -/
theorem party_distribution_counts_complete (wahlperiode : Int) (all_members : List Member) :
    ((party_distribution wahlperiode all_members).map Entry.count).sum = all_members.length ∧
    ∀ e ∈ party_distribution wahlperiode all_members,
      e.count = (all_members.filter fun m => attributeParty wahlperiode m = e.fraktion).length := by
  have hperm : (List.insertionSort pairLe (tally wahlperiode all_members)).Perm
      (tally wahlperiode all_members) := List.perm_insertionSort _ _
  constructor
  · have hmm : (party_distribution wahlperiode all_members).map Entry.count
        = (List.insertionSort pairLe (tally wahlperiode all_members)).map Prod.snd := by
      rw [party_distribution_eq_map, List.map_map]
      rfl
    rw [hmm, (hperm.map Prod.snd).sum_eq]
    exact tally_sum wahlperiode all_members
  · intro e he
    rw [party_distribution_eq_map, List.mem_map] at he
    obtain ⟨pc, hpc, rfl⟩ := he
    have hmem : pc ∈ tally wahlperiode all_members := hperm.mem_iff.mp hpc
    have hget := mem_getCount (tally wahlperiode all_members) pc.1 pc.2
      (tally_nodup wahlperiode all_members) (by simpa using hmem)
    show pc.2 = (all_members.filter fun m => attributeParty wahlperiode m = pc.1).length
    rw [← tally_getCount]
    exact hget.symm

/-- C3: each returned entry carries
`percentage = round(count / total * 100.0, 2)` for the shared total (the
number of fetched records), and a zero total yields the empty distribution,
so the division guarded by `if total_members > 0` is never reached. -/
theorem party_distribution_percentage (wahlperiode : Int) (all_members : List Member) :
    (all_members.length = 0 → party_distribution wahlperiode all_members = []) ∧
    ∀ e ∈ party_distribution wahlperiode all_members,
      e.percentage = round2 ((e.count : ℚ) / (all_members.length : ℚ) * 100) := by
  constructor
  · intro h
    rw [List.length_eq_zero] at h
    subst h
    rfl
  · intro e he
    rw [party_distribution_eq_map, List.mem_map] at he
    obtain ⟨pc, hpc, rfl⟩ := he
    by_cases h0 : all_members.length = 0
    · rw [List.length_eq_zero] at h0
      subst h0
      simp [tally] at hpc
    · have hpos : 0 < all_members.length := Nat.pos_of_ne_zero h0
      show (if 0 < all_members.length then
          round2 ((pc.2 : ℚ) / (all_members.length : ℚ) * 100) else 0)
        = round2 ((pc.2 : ℚ) / (all_members.length : ℚ) * 100)
      rw [if_pos hpos]

/-- C4: the returned distribution is sorted by count descending with ties
broken by ascending label (strictly, since labels are distinct), and the
ranking is deterministic — the stage is a pure function of the record
list. -/
theorem party_distribution_ranking (wahlperiode : Int) (all_members : List Member) :
    (party_distribution wahlperiode all_members).Pairwise
      (fun a b => b.count < a.count ∨ (a.count = b.count ∧ a.fraktion < b.fraktion)) ∧
    ∀ ms1 ms2 : List Member, ms1 = ms2 →
      party_distribution wahlperiode ms1 = party_distribution wahlperiode ms2 := by
  refine ⟨?_, fun ms1 ms2 h => by rw [h]⟩
  rw [party_distribution_eq_map, List.pairwise_map]
  have hsorted : (List.insertionSort pairLe (tally wahlperiode all_members)).Pairwise pairLe :=
    List.sorted_insertionSort pairLe (tally wahlperiode all_members)
  have hnd : ((List.insertionSort pairLe (tally wahlperiode all_members)).map Prod.fst).Nodup :=
    ((List.perm_insertionSort pairLe (tally wahlperiode all_members)).map Prod.fst).symm.nodup
      (tally_nodup wahlperiode all_members)
  have hne : (List.insertionSort pairLe (tally wahlperiode all_members)).Pairwise
      (fun a b => a.1 ≠ b.1) := List.pairwise_map.mp hnd
  refine (hsorted.and hne).imp ?_
  intro a b hab
  obtain ⟨hle, hne1⟩ := hab
  rcases hle with h1 | ⟨h2, h3⟩
  · exact Or.inl h1
  · exact Or.inr ⟨h2, lt_of_le_of_ne h3 hne1⟩

end DipServer

namespace DipServer

lemma fetchPages_pages_le (upstream : Nat → HttpResponse) :
    ∀ gas n cursor acc, (fetchPages upstream gas n cursor acc).2 ≤ n + gas + 1 := by
  intro gas
  induction gas with
  | zero =>
    intro n cursor acc
    rw [fetchPages]
    split
    · simp
    · split
      · simp
      · simp
  | succ g ih =>
    intro n cursor acc
    rw [fetchPages]
    split
    · simp
    · split
      · simp
      · exact le_trans (ih _ _ _) (by omega)

lemma fetchPages_continue (upstream : Nat → HttpResponse) (gas n : Nat)
    (cursor : Option String) (acc : List Member)
    (hok : ¬ isErrorStatus (upstream n).status)
    (hcont : ¬ (pyFalsy (upstream n).body.cursor ∨ (upstream n).body.cursor = cursor)) :
    fetchPages upstream (gas + 1) n cursor acc =
      fetchPages upstream gas (n + 1) (upstream n).body.cursor
        (acc ++ (upstream n).body.documents) := by
  rw [fetchPages, if_neg hok, if_neg hcont]

lemma fetchPages_ok (upstream : Nat → HttpResponse)
    (hok : ∀ i, ¬ isErrorStatus (upstream i).status) :
    ∀ gas n acc, ∃ m, 1 ≤ m ∧ m ≤ gas + 1 ∧
      fetchPages upstream gas n (usedCursor upstream n) acc =
        (Except.ok (acc ++ (List.range' n m).flatMap (pageDocs upstream)), n + m) ∧
      ∀ j, j + 1 < m → ¬ terminalAt upstream (n + j) := by
  intro gas
  induction gas with
  | zero =>
    intro n acc
    refine ⟨1, le_refl 1, le_refl 1, ?_, fun j hj => by omega⟩
    rw [fetchPages, if_neg (hok n)]
    split
    · simp [pageDocs]
    · simp [pageDocs]
  | succ g ih =>
    intro n acc
    by_cases hterm : terminalAt upstream n
    · refine ⟨1, le_refl 1, by omega, ?_, fun j hj => by omega⟩
      rw [fetchPages, if_neg (hok n), if_pos (show pyFalsy (upstream n).body.cursor ∨
        (upstream n).body.cursor = usedCursor upstream n from hterm)]
      simp [pageDocs]
    · obtain ⟨m, h1, h2, heq, hterms⟩ := ih (n + 1) (acc ++ (upstream n).body.documents)
      refine ⟨m + 1, by omega, by omega, ?_, ?_⟩
      · rw [fetchPages_continue upstream g n (usedCursor upstream n) acc (hok n)
          (show ¬ (pyFalsy (upstream n).body.cursor ∨
            (upstream n).body.cursor = usedCursor upstream n) from hterm)]
        have hcast : (upstream n).body.cursor = usedCursor upstream (n + 1) := rfl
        rw [hcast, heq, Prod.mk.injEq]
        refine ⟨?_, by omega⟩
        rw [List.range'_succ, List.flatMap_cons, ← List.append_assoc]
        rfl
      · intro j hj
        rcases j with _ | j
        · simpa using hterm
        · have hti := hterms j (by omega)
          have heqn : n + (j + 1) = n + 1 + j := by omega
          rw [heqn]
          exact hti

lemma fetchPages_error (upstream : Nat → HttpResponse) :
    ∀ t gas n acc, t ≤ gas →
      (∀ j, j < t → ¬ isErrorStatus (upstream (n + j)).status ∧ ¬ terminalAt upstream (n + j)) →
      isErrorStatus (upstream (n + t)).status →
      fetchPages upstream gas n (usedCursor upstream n) acc =
        (Except.error (DipError.httpError (upstream (n + t)).status), n + t + 1) := by
  intro t
  induction t with
  | zero =>
    intro gas n acc _ _ hbad
    rw [fetchPages, if_pos (show isErrorStatus (upstream n).status by simpa using hbad)]
    simp
  | succ t ih =>
    intro gas n acc hle hbefore hbad
    obtain ⟨h0ok, h0term⟩ := hbefore 0 (Nat.succ_pos t)
    rcases gas with _ | g
    · omega
    rw [fetchPages_continue upstream g n (usedCursor upstream n) acc
      (show ¬ isErrorStatus (upstream n).status by simpa using h0ok)
      (show ¬ (pyFalsy (upstream n).body.cursor ∨
        (upstream n).body.cursor = usedCursor upstream n) by
          simpa [terminalAt] using h0term)]
    have hcast : (upstream n).body.cursor = usedCursor upstream (n + 1) := rfl
    rw [hcast]
    have hrec := ih g (n + 1) (acc ++ (upstream n).body.documents) (by omega)
      (fun j hj => by
        have := hbefore (j + 1) (by omega)
        have heqn : n + (j + 1) = n + 1 + j := by omega
        rw [heqn] at this
        exact this)
      (by
        have heqn : n + (t + 1) = n + 1 + t := by omega
        rw [heqn] at hbad
        exact hbad)
    rw [hrec, Prod.mk.injEq]
    have heqn : n + 1 + t = n + (t + 1) := by omega
    rw [heqn]
    exact ⟨rfl, rfl⟩

/-- An upstream whose every response is OK, has no documents and no cursor:
the loop stops after the first page. -/
def onePage : Nat → HttpResponse := fun _ => ⟨200, ⟨[], none⟩⟩

/-- An adversarial upstream: every response is OK and returns a fresh
non-empty cursor, so the loop only stops at the safety bound. -/
def advUpstream : Nat → HttpResponse := fun i => ⟨200, ⟨[], some (Nat.repr (i + 1))⟩⟩

/-- An upstream that always answers with HTTP status 500. -/
def badUpstream : Nat → HttpResponse := fun _ => ⟨500, ⟨[], none⟩⟩

/-- An upstream that always answers with HTTP status 300 — not a success
status, but not one `raise_for_status` raises for — and one document. -/
def redirectUpstream : Nat → HttpResponse := fun _ => ⟨300, ⟨[unknownMember], none⟩⟩

/-- C5: with a truthy key and no HTTP error, the loop requests no further
page after a terminal response (cursor absent, null, empty, or identical to
the cursor just used), and the documents accumulated in page order are
exactly what flows into the attribution/tally/ranking stage. -/
theorem pagination_stops_on_terminal_cursor (apiKey : Option String)
    (upstream : Nat → HttpResponse) (wahlperiode : Int)
    (hkey : ¬ pyFalsy apiKey) (hok : ∀ i, ¬ isErrorStatus (upstream i).status) :
    (get_party_distribution apiKey upstream wahlperiode).1 =
      Except.ok (party_distribution wahlperiode
        ((List.range (get_party_distribution apiKey upstream wahlperiode).2).flatMap
          (pageDocs upstream))) ∧
    ∀ i, i + 1 < (get_party_distribution apiKey upstream wahlperiode).2 →
      ¬ terminalAt upstream i := by
  obtain ⟨m, h1, h2, heq, hterm⟩ := fetchPages_ok upstream hok 100 0 []
  have heq0 : fetchPages upstream 100 0 none [] =
      (Except.ok ((List.range' 0 m).flatMap (pageDocs upstream)), m) := by
    simpa using heq
  have hgpd : get_party_distribution apiKey upstream wahlperiode =
      (Except.ok (party_distribution wahlperiode ((List.range' 0 m).flatMap (pageDocs upstream))),
        m) := by
    unfold get_party_distribution
    rw [if_neg hkey, heq0]
  rw [hgpd]
  constructor
  · rw [← List.range_eq_range']
  · intro i hi
    simpa using hterm i (by omega)

/-- C6 (amended): the pagination loop always terminates after at most 101
page requests — the check `pages_fetched > 100` runs after the counter is
incremented, so the 101st page is still fetched — and, absent errors, the
bounded run still returns the distribution of the records gathered so far
rather than raising. -/
theorem pagination_bounded (apiKey : Option String) (upstream : Nat → HttpResponse)
    (wahlperiode : Int) :
    (get_party_distribution apiKey upstream wahlperiode).2 ≤ 101 ∧
    (¬ pyFalsy apiKey → (∀ i, ¬ isErrorStatus (upstream i).status) →
      (get_party_distribution apiKey upstream wahlperiode).1 =
        Except.ok (party_distribution wahlperiode
          ((List.range (get_party_distribution apiKey upstream wahlperiode).2).flatMap
            (pageDocs upstream)))) := by
  constructor
  · unfold get_party_distribution
    split
    · simp
    · have hle := fetchPages_pages_le upstream 100 0 none []
      rcases hres : fetchPages upstream 100 0 none [] with ⟨e | ms, k⟩
      · rw [hres] at hle
        simpa using hle
      · rw [hres] at hle
        simpa using hle
  · intro hkey hok
    obtain ⟨m, h1, h2, heq, hterm⟩ := fetchPages_ok upstream hok 100 0 []
    have heq0 : fetchPages upstream 100 0 none [] =
        (Except.ok ((List.range' 0 m).flatMap (pageDocs upstream)), m) := by
      simpa using heq
    have hgpd : get_party_distribution apiKey upstream wahlperiode =
        (Except.ok (party_distribution wahlperiode
          ((List.range' 0 m).flatMap (pageDocs upstream))), m) := by
      unfold get_party_distribution
      rw [if_neg hkey, heq0]
    rw [hgpd]
    rw [← List.range_eq_range']

/-- C6 counterexample: against an adversary that always supplies a fresh
non-empty cursor, the loop issues 101 page requests — one more than the
100-page ceiling the claim states. -/
theorem pagination_101_pages :
    (get_party_distribution (some "key") advUpstream 21).2 = 101 ∧
    100 < (get_party_distribution (some "key") advUpstream 21).2 := by decide

/-- C7: a falsy `DIP_API_KEY` (unset or empty) makes `get_party_distribution`
fail with the configuration error before any page request is issued, and
that error is distinct from every transport error. -/
theorem missing_key_fails_fast (apiKey : Option String) (upstream : Nat → HttpResponse)
    (wahlperiode : Int) (h : pyFalsy apiKey) :
    get_party_distribution apiKey upstream wahlperiode =
      (Except.error DipError.configError, 0) ∧
    ∀ s, DipError.configError ≠ DipError.httpError s := by
  refine ⟨?_, fun s hs => by cases hs⟩
  unfold get_party_distribution
  rw [if_pos h]

/-- C8 (amended): when the loop reaches a page whose HTTP status is a 4xx
or 5xx error — the statuses `raise_for_status` raises for — the whole
aggregation aborts at once with the transport error carrying that status:
no further page is requested and no distribution is returned. -/
theorem http_error_aborts (apiKey : Option String) (upstream : Nat → HttpResponse)
    (wahlperiode : Int) (i : Nat) (hkey : ¬ pyFalsy apiKey) (hi : i ≤ 100)
    (hbefore : ∀ j, j < i → ¬ isErrorStatus (upstream j).status ∧ ¬ terminalAt upstream j)
    (hbad : isErrorStatus (upstream i).status) :
    get_party_distribution apiKey upstream wahlperiode =
      (Except.error (DipError.httpError (upstream i).status), i + 1) := by
  have herr := fetchPages_error upstream i 100 0 [] hi
    (fun j hj => by simpa using hbefore j hj) (by simpa using hbad)
  have herr0 : fetchPages upstream 100 0 none [] =
      (Except.error (DipError.httpError (upstream i).status), i + 1) := by
    simpa using herr
  unfold get_party_distribution
  rw [if_neg hkey, herr0]

/-- C8 counterexample: a response with status 300 is not a success (2xx)
status, yet `raise_for_status` does not raise for it — the aggregation
continues, consumes the page and returns a distribution over its document
instead of aborting with a transport error. -/
theorem non2xx_not_aborted :
    (redirectUpstream 0).status = 300 ∧
    get_party_distribution (some "key") redirectUpstream 21 =
      (Except.ok (party_distribution 21 [unknownMember]), 1) :=
  ⟨rfl, rfl⟩

end DipServer

/-- C9: every dict emitted by either copy of `get_party_distribution` has
exactly the keys `fraktion`, `count` and `percentage`, in that order; in
particular no `members` key (and hence no member display name) ever appears
in the returned entries. -/
theorem entry_dicts_key_shape (wahlperiode : Int) (all_members : List Member)
    (d : List (String × JsonValue))
    (h : d ∈ DipServer.party_distribution_dicts wahlperiode all_members ∨
         d ∈ ChatMcp.party_distribution_dicts wahlperiode all_members) :
    d.map Prod.fst = ["fraktion", "count", "percentage"] ∧
    "members" ∉ d.map Prod.fst := by
  have hk : d.map Prod.fst = ["fraktion", "count", "percentage"] := by
    rcases h with h | h
    · simp only [DipServer.party_distribution_dicts] at h
      rw [List.mem_map] at h
      obtain ⟨e, _, rfl⟩ := h
      rfl
    · simp only [ChatMcp.party_distribution_dicts] at h
      rw [List.mem_map] at h
      obtain ⟨e, _, rfl⟩ := h
      rfl
  refine ⟨hk, ?_⟩
  rw [hk]
  decide

lemma rolesScan_eq (wahlperiode : Int) (roles : List Role) :
    DipServer.rolesScan wahlperiode roles = ChatMcp.rolesScan wahlperiode roles := by
  induction roles with
  | nil => rfl
  | cons role rest ih => simp only [DipServer.rolesScan, ChatMcp.rolesScan, ih]

lemma attributeParty_eq (wahlperiode : Int) (member : Member) :
    DipServer.attributeParty wahlperiode member = ChatMcp.attributeParty wahlperiode member := by
  unfold DipServer.attributeParty ChatMcp.attributeParty
  rw [rolesScan_eq]

lemma bump_eq (counts : List (String × Nat)) (p : String) :
    DipServer.bump counts p = ChatMcp.bump counts p := by
  induction counts with
  | nil => rfl
  | cons head rest ih =>
    obtain ⟨q, c⟩ := head
    simp only [DipServer.bump, ChatMcp.bump, ih]

lemma tally_eq (wahlperiode : Int) (ms : List Member) :
    DipServer.tally wahlperiode ms = ChatMcp.tally wahlperiode ms := by
  unfold DipServer.tally ChatMcp.tally
  congr 1
  funext acc m
  rw [bump_eq, attributeParty_eq]

lemma party_distribution_eq (wahlperiode : Int) (ms : List Member) :
    DipServer.party_distribution wahlperiode ms = ChatMcp.party_distribution wahlperiode ms := by
  unfold DipServer.party_distribution ChatMcp.party_distribution
  rw [tally_eq]

/-- C10: the backend and frontend copies of `get_party_distribution`
implement extensionally equal attribution/tally/ranking stages, and their
page-request parameters differ exactly in the institutional filter: dropping
the `f.zuordnung` pair from the backend parameters yields the frontend
parameters, the backend always sends `f.zuordnung = "BT"`, and the frontend
never sends that key. -/
theorem backend_frontend_pipelines_equal (wahlperiode : Int) (all_members : List Member)
    (apiKey : String) (cursor : Option String) :
    DipServer.party_distribution wahlperiode all_members =
      ChatMcp.party_distribution wahlperiode all_members ∧
    (DipServer.buildParams apiKey wahlperiode cursor).filter
        (fun p => p.1 != "f.zuordnung") = ChatMcp.buildParams apiKey wahlperiode cursor ∧
    (DipServer.buildParams apiKey wahlperiode cursor).lookup "f.zuordnung" =
      some (ParamValue.str "BT") ∧
    (ChatMcp.buildParams apiKey wahlperiode cursor).lookup "f.zuordnung" = none := by
  refine ⟨party_distribution_eq wahlperiode all_members, ?_, ?_, ?_⟩
  · rcases cursor with _ | c
    · rfl
    · by_cases hc : c = ""
      · subst hc
        rfl
      · simp only [DipServer.buildParams, ChatMcp.buildParams, if_neg hc]
        rfl
  · rcases cursor with _ | c
    · rfl
    · by_cases hc : c = ""
      · subst hc
        rfl
      · simp only [DipServer.buildParams, if_neg hc]
        rfl
  · rcases cursor with _ | c
    · rfl
    · by_cases hc : c = ""
      · subst hc
        rfl
      · simp only [ChatMcp.buildParams, if_neg hc]
        rfl

/-- The distribution of the single record with no name and no affiliation:
one entry, the sentinel party, count 1, percentage 100. -/
lemma party_distribution_single :
    DipServer.party_distribution 21 [unknownMember] = [⟨"Unbekannt", 1, 100⟩] := by
  rw [DipServer.party_distribution_eq_map]
  have h1 : DipServer.tally 21 [unknownMember] = [("Unbekannt", 1)] := by decide
  rw [h1]
  norm_num [List.insertionSort, List.orderedInsert, round2, roundHalfEven]

theorem party_distribution_counts_complete_witness :
    (Entry.mk "Unbekannt" 1 100).count =
      ([unknownMember].filter fun m =>
        DipServer.attributeParty 21 m = (Entry.mk "Unbekannt" 1 100).fraktion).length :=
  (DipServer.party_distribution_counts_complete 21 [unknownMember]).2
    ⟨"Unbekannt", 1, 100⟩ (by simp [party_distribution_single])

theorem party_distribution_percentage_witness :
    (Entry.mk "Unbekannt" 1 100).percentage =
      round2 ((((Entry.mk "Unbekannt" 1 100).count : ℚ)) /
        ((([unknownMember] : List Member).length : ℚ)) * 100) :=
  (DipServer.party_distribution_percentage 21 [unknownMember]).2
    ⟨"Unbekannt", 1, 100⟩ (by simp [party_distribution_single])

theorem party_distribution_ranking_witness :
    DipServer.party_distribution 21 [unknownMember] =
      DipServer.party_distribution 21 [unknownMember] :=
  (DipServer.party_distribution_ranking 21 [unknownMember]).2
    [unknownMember] [unknownMember] rfl

theorem pagination_stops_on_terminal_cursor_witness :
    (DipServer.get_party_distribution (some "key") DipServer.onePage 21).1 =
      Except.ok (DipServer.party_distribution 21
        ((List.range
          (DipServer.get_party_distribution (some "key") DipServer.onePage 21).2).flatMap
          (DipServer.pageDocs DipServer.onePage))) :=
  (DipServer.pagination_stops_on_terminal_cursor (some "key") DipServer.onePage 21
    (by decide) (fun i => (by decide : ¬ isErrorStatus 200))).1

theorem pagination_bounded_witness :
    (DipServer.get_party_distribution (some "key") DipServer.advUpstream 21).1 =
      Except.ok (DipServer.party_distribution 21
        ((List.range
          (DipServer.get_party_distribution (some "key") DipServer.advUpstream 21).2).flatMap
          (DipServer.pageDocs DipServer.advUpstream))) :=
  (DipServer.pagination_bounded (some "key") DipServer.advUpstream 21).2
    (by decide) (fun i => (by decide : ¬ isErrorStatus 200))

theorem missing_key_fails_fast_witness :
    DipServer.get_party_distribution none DipServer.onePage 21 =
      (Except.error DipError.configError, 0) :=
  (DipServer.missing_key_fails_fast none DipServer.onePage 21 (Or.inl rfl)).1

theorem http_error_aborts_witness :
    DipServer.get_party_distribution (some "key") DipServer.badUpstream 21 =
      (Except.error (DipError.httpError (DipServer.badUpstream 0).status), 0 + 1) :=
  DipServer.http_error_aborts (some "key") DipServer.badUpstream 21 0 (by decide) (by decide)
    (fun j hj => absurd hj (Nat.not_lt_zero j)) (by decide)

theorem entry_dicts_key_shape_witness :
    (DipServer.entryDict ⟨"Unbekannt", 1, 100⟩).map Prod.fst =
      ["fraktion", "count", "percentage"] :=
  (entry_dicts_key_shape 21 [unknownMember] (DipServer.entryDict ⟨"Unbekannt", 1, 100⟩)
    (Or.inl (by simp [DipServer.party_distribution_dicts, party_distribution_single]))).1
